/-
Verification of the CHAT-WITH-PDF document-retrieval core.

Shallow embedding of `python_service/app/chunker.py` (TextChunker) and
`python_service/app/vector_store.py` (VectorStore), plus the response
shaping of the `/api/search` endpoint in `python_service/app/main.py`.
Python floats are modelled as rationals (ℚ), Python ints as Int, Python
dicts (insertion-ordered, unique keys) as association lists, and the
FAISS `IndexFlatL2` library calls by their documented exact semantics:
exhaustive squared-L2 scan returning the k smallest distances with ties
broken towards the lower stored index.
-/
import Mathlib

namespace ChatWithPdf

/-! ## Python string primitives

`re` with `str` input uses Unicode character classes; `\s` (and
`str.split()` / `str.strip()`) match the Unicode whitespace set, listed
here explicitly for the Basic Multilingual Plane. -/

def pyIsSpace (c : Char) : Bool :=
  c = ' ' || c = '\t' || c = '\n' || c = '\x0b' || c = '\x0c' || c = '\x0d' ||
  c = '\x1c' || c = '\x1d' || c = '\x1e' || c = '\x1f' || c = '\x85' || c = '\xa0' ||
  c.val = 0x1680 || (0x2000 ≤ c.val && c.val ≤ 0x200a) || c.val = 0x2028 ||
  c.val = 0x2029 || c.val = 0x202f || c.val = 0x205f || c.val = 0x3000

/-- Model of `str.strip()` on a character list: drop Unicode whitespace at both ends. -/
def pyStrip (l : List Char) : List Char :=
  ((l.dropWhile pyIsSpace).reverse.dropWhile pyIsSpace).reverse

/-- Model of `len(text.split())`: count maximal runs of non-whitespace characters.
The flag records whether the previous character was inside a word. -/
def wordCountAux : List Char → Bool → Nat
  | [], _ => 0
  | c :: cs, inWord =>
    if pyIsSpace c then wordCountAux cs false
    else if inWord then wordCountAux cs true else 1 + wordCountAux cs true

def wordCount (s : String) : Nat := wordCountAux s.data false

/-! ## chunker.py — TextChunker -/

/-- Model of `re.sub(r'\s+', ' ', text)`: collapse each maximal whitespace run to a
single space. The flag records whether the previous character was whitespace
(i.e. whether we are inside a run already replaced). -/
def collapseWSAux : List Char → Bool → List Char
  | [], _ => []
  | c :: cs, prevSpace =>
    if pyIsSpace c then
      if prevSpace then collapseWSAux cs true else ' ' :: collapseWSAux cs true
    else c :: collapseWSAux cs false

def collapseWS (l : List Char) : List Char := collapseWSAux l false

/-- The class `[\x00-\x08\x0b-\x0c\x0e-\x1f\x7f-\x9f]` of
`re.sub(r'[\x00-\x08\x0b-\x0c\x0e-\x1f\x7f-\x9f]', '', text)`. -/
def isStrippedCtrl (c : Char) : Bool :=
  c.val ≤ 0x08 || (0x0b ≤ c.val && c.val ≤ 0x0c) ||
  (0x0e ≤ c.val && c.val ≤ 0x1f) || (0x7f ≤ c.val && c.val ≤ 0x9f)

/-- Model of `TextChunker._clean_text`: collapse whitespace, delete control
characters, strip the ends. -/
def clean_text (s : String) : String :=
  ⟨pyStrip ((collapseWS s.data).filter (fun c => !isStrippedCtrl c))⟩

/-- Does the (reversed) current segment end in `.`, `!` or `?` — the
lookbehind `(?<=[.!?])` of the sentence-splitting regex. -/
def endsSentenceRev : List Char → Bool
  | [] => false
  | c :: _ => c = '.' || c = '!' || c = '?'

/-- Model of `re.split(r'(?<=[.!?])\s+', text)`: walk the text; `some seg` is the
current segment accumulated in reverse, `none` means we are inside a
delimiter run (a whitespace run opened directly after `.`, `!` or `?`),
which is consumed greedily before the next segment starts. -/
def splitSentencesAux : List Char → Option (List Char) → List (List Char)
  | [], some seg => [seg.reverse]
  | [], none => [[]]
  | c :: cs, some seg =>
    if pyIsSpace c && endsSentenceRev seg then seg.reverse :: splitSentencesAux cs none
    else splitSentencesAux cs (some (c :: seg))
  | c :: cs, none =>
    if pyIsSpace c then splitSentencesAux cs none
    else splitSentencesAux cs (some [c])

/-- Model of `TextChunker._split_into_sentences`: regex split, then
`[s.strip() for s in sentences if s.strip()]`. -/
def split_into_sentences (s : String) : List String :=
  ((splitSentencesAux s.data (some [])).map pyStrip).filterMap
    (fun l => if l.isEmpty then none else some ⟨l⟩)

/-- Chunker configuration: `TextChunker.__init__` stores the two Python
ints without any validation. -/
structure ChunkerCfg where
  chunk_size : Int
  overlap : Int

/-- The seeding loop of `_build_chunks` (lines 103–110): iterate the closed
chunk's sentences in reverse, prepending each (`insert(0, s)`) while the
running size stays within `overlap`, stopping at the first that does not fit.
First argument is the reversed closed chunk. -/
def seedWalk (overlap : Int) : List String → List String → Int → List String × Int
  | [], acc, size => (acc, size)
  | s :: rest, acc, size =>
    if size + (s.length : Int) ≤ overlap then
      seedWalk overlap rest (s :: acc) (size + (s.length : Int))
    else (acc, size)

/-- The overlap seed for the next chunk after closing `current` (lines
100–115): if the closed chunk's joined text is longer than `overlap`, walk
its sentences backwards; otherwise start the next chunk empty. -/
def overlapSeed (overlap : Int) (current : List String) : List String × Int :=
  if ((String.intercalate " " current).length : Int) > overlap then
    seedWalk overlap current.reverse [] 0
  else ([], 0)

/-- One iteration of the `for sentence in sentences` loop of
`_build_chunks`. State: emitted chunks, current chunk's sentences,
`current_size`. -/
def buildStep (cfg : ChunkerCfg) (st : List String × List String × Int)
    (sentence : String) : List String × List String × Int :=
  if st.2.2 + (sentence.length : Int) > cfg.chunk_size ∧ st.2.1 ≠ [] then
    (st.1 ++ [String.intercalate " " st.2.1],
      (overlapSeed cfg.overlap st.2.1).1 ++ [sentence],
      (overlapSeed cfg.overlap st.2.1).2 + (sentence.length : Int))
  else
    (st.1, st.2.1 ++ [sentence], st.2.2 + (sentence.length : Int))

/-- Model of `TextChunker._build_chunks`: fold the loop, then flush the final
non-empty chunk. -/
def build_chunks (cfg : ChunkerCfg) (sentences : List String) : List String :=
  let st := sentences.foldl (buildStep cfg) ([], [], 0)
  if st.2.1 = [] then st.1 else st.1 ++ [String.intercalate " " st.2.1]

/-- The chunk dictionary produced by `chunk_text` (lines 50–57). -/
structure ChunkDict where
  chunk_id : Nat
  text : String
  char_count : Nat
  word_count : Nat
  pdf_id : Option String
  position : Nat
deriving Repr, DecidableEq

/-- The `for i, chunk_text in enumerate(chunks)` metadata loop. -/
def withMeta (pdf_id : Option String) : Nat → List String → List ChunkDict
  | _, [] => []
  | i, t :: ts =>
    ⟨i, t, t.length, wordCount t, pdf_id, i⟩ :: withMeta pdf_id (i + 1) ts

/-- Model of `TextChunker.chunk_text`. -/
def chunk_text (cfg : ChunkerCfg) (text : String) (pdf_id : Option String) :
    List ChunkDict :=
  if (pyStrip text.data).isEmpty then []
  else
    let cleaned := clean_text text
    let sentences := split_into_sentences cleaned
    withMeta pdf_id 0 (build_chunks cfg sentences)

/-! ## vector_store.py — VectorStore

Python dicts are modelled as insertion-ordered association lists with
unique keys: assignment replaces in place, `del` removes the key. -/

def alookup {β : Type} (k : String) : List (String × β) → Option β
  | [] => none
  | p :: ps => if p.1 = k then some p.2 else alookup k ps

def ainsert {β : Type} (k : String) (v : β) : List (String × β) → List (String × β)
  | [] => [(k, v)]
  | p :: ps => if p.1 = k then (k, v) :: ps else p :: ainsert k v ps

def aerase {β : Type} (k : String) (l : List (String × β)) : List (String × β) :=
  l.filter (fun p => p.1 ≠ k)

/-- A FAISS `IndexFlatL2`: its fixed dimension `d` and the stored vectors
in insertion order. -/
structure FaissIndex where
  d : Nat
  vectors : List (List ℚ)
deriving Repr, DecidableEq

/-- State of `VectorStore`: the two in-memory dicts (`self.indexes`,
`self.chunks_data`) and the per-pdf artifacts persisted under
`storage_dir` (`{pdf_id}.index`, `{pdf_id}_chunks.json`). The on-disk
chunk file drops each chunk's `embedding` key; chunks are abstract here
(type `α`), so that serialization detail is not observable. -/
structure VectorStore (α : Type) where
  indexes : List (String × FaissIndex)
  chunks_data : List (String × List α)
  disk_indexes : List (String × FaissIndex)
  disk_chunks : List (String × List α)

/-- A fresh store over an empty storage directory. -/
def emptyStore {α : Type} : VectorStore α := ⟨[], [], [], []⟩

/-- Test that `np.array(embeddings, dtype=np.float32)` has a 2-D shape exactly when
all rows have the same length; returns that common row length. -/
def uniformDim : List (List ℚ) → Option Nat
  | [] => none
  | v :: vs => if vs.all (fun w => w.length = v.length) then some v.length else none

/-- Model of `VectorStore.add_pdf`: reject empty or non-rectangular embeddings
(the numpy conversion / shape check, lines 49–59), otherwise build a fresh
`IndexFlatL2` from the embeddings and overwrite both dict entries and both
persisted files for `pdf_id`. No comparison of `len(chunks)` with
`len(embeddings)` is ever made. Returns the new state and the Bool result. -/
def add_pdf {α : Type} (vs : VectorStore α) (pdf_id : String) (chunks : List α)
    (embeddings : List (List ℚ)) : VectorStore α × Bool :=
  if embeddings = [] then (vs, false)
  else
    match uniformDim embeddings with
    | none => (vs, false)
    | some d =>
      let idx : FaissIndex := ⟨d, embeddings⟩
      ({ indexes := ainsert pdf_id idx vs.indexes,
         chunks_data := ainsert pdf_id chunks vs.chunks_data,
         disk_indexes := ainsert pdf_id idx vs.disk_indexes,
         disk_chunks := ainsert pdf_id chunks vs.disk_chunks }, true)

/-- Squared Euclidean distance between two equal-length vectors. -/
def sqL2 (q v : List ℚ) : ℚ := ((q.zip v).map (fun p => (p.1 - p.2) ^ 2)).sum

/-- The FAISS ordering on (distance, stored index) pairs: smaller distance
first, ties broken towards the lower stored index. -/
def hitLE (a b : ℚ × Nat) : Prop := a.1 < b.1 ∨ (a.1 = b.1 ∧ a.2 ≤ b.2)

instance : DecidableRel hitLE := fun a b => by unfold hitLE; infer_instance

instance : IsTotal (ℚ × Nat) hitLE :=
  ⟨fun a b => by
    unfold hitLE
    rcases lt_trichotomy a.1 b.1 with h | h | h
    · exact Or.inl (Or.inl h)
    · rcases Nat.le_total a.2 b.2 with h2 | h2
      · exact Or.inl (Or.inr ⟨h, h2⟩)
      · exact Or.inr (Or.inr ⟨h.symm, h2⟩)
    · exact Or.inr (Or.inl h)⟩

instance : IsTrans (ℚ × Nat) hitLE :=
  ⟨fun a b c hab hbc => by
    unfold hitLE at *
    rcases hab with h1 | ⟨h1, h1i⟩ <;> rcases hbc with h2 | ⟨h2, h2i⟩
    · exact Or.inl (h1.trans h2)
    · exact Or.inl (h2 ▸ h1)
    · exact Or.inl (h1 ▸ h2)
    · exact Or.inr ⟨h1.trans h2, h1i.trans h2i⟩⟩

/-- The exhaustive distance scan: distance of `q` to each stored vector,
paired with the vector's stored index (counting from `i`). -/
def distFrom (q : List ℚ) : Nat → List (List ℚ) → List (ℚ × Nat)
  | _, [] => []
  | i, v :: rest => (sqL2 q v, i) :: distFrom q (i + 1) rest

/-- Semantics of `faiss.IndexFlatL2.search` on one query: exact squared-L2
distances to every stored vector, sorted by `hitLE` (ascending distance,
ties to the lower index), truncated to `k`. FAISS pads requests beyond
`ntotal` with index −1; only the meaningful hits are modelled. -/
def faissSearch (idx : FaissIndex) (q : List ℚ) (k : Nat) : List (ℚ × Nat) :=
  (List.insertionSort hitLE (distFrom q 0 idx.vectors)).take k

/-- One search result: the matched chunk dict, copied and extended with
`similarity_score` and `rank` (lines 112–117). -/
structure SearchResult (α : Type) where
  chunk : α
  similarity_score : ℚ
  rank : Nat
deriving Repr, DecidableEq

/-- The `for i, (distance, idx) in enumerate(zip(...))` result loop:
`i` counts every iteration (so `rank = i + 1` even after a skipped hit),
and a hit whose index is out of range of `chunks` is skipped. -/
def buildResults {α : Type} (chunks : List α) : Nat → List (ℚ × Nat) →
    List (SearchResult α)
  | _, [] => []
  | i, (dist, j) :: rest =>
    if h : j < chunks.length then
      ⟨chunks.get ⟨j, h⟩, 1 / (1 + dist), i + 1⟩ :: buildResults chunks (i + 1) rest
    else buildResults chunks (i + 1) rest

/-- Model of `VectorStore.search`: unknown `pdf_id` returns `[]` (line 97–99); a
missing `chunks_data` entry or a query whose length differs from the index
dimension raises inside the `try`, is caught by the bare `except`, and the
method returns `[]` (lines 121–123). Otherwise FAISS is asked for
`min(top_k, len(chunks))` hits and the result list is built. -/
def VectorStore.search {α : Type} (vs : VectorStore α) (pdf_id : String)
    (query : List ℚ) (top_k : Nat) : List (SearchResult α) :=
  match alookup pdf_id vs.indexes with
  | none => []
  | some idx =>
    match alookup pdf_id vs.chunks_data with
    | none => []
    | some chunks =>
      if query.length = idx.d then
        buildResults chunks 0 (faissSearch idx query (min top_k chunks.length))
      else []

/-- Result record of `VectorStore.get_pdf_info`. -/
structure PdfInfo where
  pdf_id : String
  chunks_count : Nat
  dimension : Nat
deriving Repr, DecidableEq

/-- Model of `VectorStore.get_pdf_info`: returns `None` for an unknown id. -/
def get_pdf_info {α : Type} (vs : VectorStore α) (pdf_id : String) : Option PdfInfo :=
  match alookup pdf_id vs.indexes with
  | none => none
  | some idx =>
    some ⟨pdf_id, ((alookup pdf_id vs.chunks_data).getD []).length, idx.d⟩

/-- Model of `VectorStore.list_pdfs`: the keys of `self.indexes`. -/
def list_pdfs {α : Type} (vs : VectorStore α) : List String :=
  vs.indexes.map (fun p => p.1)

/-- Model of `VectorStore.delete_pdf`: remove the id from both dicts and unlink both
persisted files when present, returning `true`; return `false` for an
unknown id. -/
def delete_pdf {α : Type} (vs : VectorStore α) (pdf_id : String) :
    VectorStore α × Bool :=
  if (alookup pdf_id vs.indexes).isSome then
    ({ indexes := aerase pdf_id vs.indexes,
       chunks_data := aerase pdf_id vs.chunks_data,
       disk_indexes := aerase pdf_id vs.disk_indexes,
       disk_chunks := aerase pdf_id vs.disk_chunks }, true)
  else (vs, false)

/-- The `/api/search` endpoint body (`main.py`, `search_similar`): an empty
result list from `VectorStore.search` is mapped to `success=False` with the
generic message, a non-empty one to `success=True`. The triple is
(success, results, message). -/
def search_response {α : Type} (vs : VectorStore α) (pdf_id : String)
    (query : List ℚ) (top_k : Nat) : Bool × List (SearchResult α) × String :=
  match vs.search pdf_id query top_k with
  | [] => (false, [], "No results found for PDF " ++ pdf_id)
  | r :: rs =>
    (true, r :: rs, "Found " ++ toString (r :: rs).length ++ " similar chunks")

/-! ## Multi-document retrieval (RetrievalCoordinator.retrieve_many) -/

/-- A merged retrieval result carrying its source document id. -/
structure MultiResult (α : Type) where
  chunk : α
  similarity_score : ℚ
  rank : Nat
  source_document_id : String
deriving Repr, DecidableEq

/-- Similarity-descending ordering used for the global re-sort. -/
def simGE {α : Type} (a b : MultiResult α) : Prop :=
  b.similarity_score ≤ a.similarity_score

instance {α : Type} : DecidableRel (@simGE α) := fun a b => by
  unfold simGE; infer_instance

instance {α : Type} : IsTotal (MultiResult α) simGE :=
  ⟨fun a b => le_total b.similarity_score a.similarity_score⟩

instance {α : Type} : IsTrans (MultiResult α) simGE :=
  ⟨fun _ _ _ hab hbc => le_trans hbc hab⟩

/-- Dense re-ranking 1..N of the merged, re-sorted result list. -/
def assignRanks {α : Type} : Nat → List (MultiResult α) → List (MultiResult α)
  | _, [] => []
  | i, r :: rs => { r with rank := i + 1 } :: assignRanks (i + 1) rs

/-- Modelled from the spec: `RetrievalCoordinator.retrieve_many` — the
repository contains no multi-document retrieval code under the service
sources (the comparison answer generator in `rag_local.py` only consumes
already-merged chunks), so the coordinator is taken from §4.4 of the spec:
search each listed document's index independently with the same `top_k`
bound, skip unknown ids (with a warning) rather than failing, tag each
result with its source document id, concatenate, re-sort globally by
`similarity_score` descending, and re-assign a single dense `rank` 1..N. -/
def retrieve_many {α : Type} (vs : VectorStore α) (document_ids : List String)
    (query : List ℚ) (top_k : Nat) : List (MultiResult α) :=
  let gathered := document_ids.flatMap (fun id =>
    if (alookup id vs.indexes).isSome then
      (vs.search id query top_k).map
        (fun r => ⟨r.chunk, r.similarity_score, r.rank, id⟩)
    else [])
  assignRanks 0 (List.insertionSort simGE gathered)

/-! ## Concrete fixtures used by witnesses and counterexamples -/

/-- One document `"a"` with one chunk and one 1-dimensional vector. -/
def stOne : VectorStore Nat := (add_pdf emptyStore "a" [0] [[1]]).1

/-- One document `"doc"` with three chunks and three 3-dimensional vectors
at squared distances 0, 1 and 3 from the query `[0,0,0]`. -/
def st3 : VectorStore Nat :=
  (add_pdf emptyStore "doc" [10, 11, 12] [[0,0,0], [1,0,0], [1,1,1]]).1

/-- A document `"a"` whose chunk list is empty while two vectors are
stored: `add_pdf` accepts this because it never compares the lengths. -/
def stEmptyChunks : VectorStore Nat := (add_pdf emptyStore "a" [] [[1], [2]]).1

/-- Two single-chunk documents: `"A"` at squared distance 1/9 (similarity
9/10) and `"B"` at squared distance 1/19 (similarity 19/20) from the query
`[0,0,0]`. -/
def stAB : VectorStore Nat :=
  (add_pdf (add_pdf emptyStore "A" [1] [[1/3, 0, 0]]).1
    "B" [2] [[3/19, 3/19, 1/19]]).1

/-! ## Association-list helper lemmas -/

theorem alookup_ainsert_self {β : Type} (k : String) (v : β)
    (l : List (String × β)) : alookup k (ainsert k v l) = some v := by
  induction l with
  | nil => simp [ainsert, alookup]
  | cons p ps ih =>
    by_cases h : p.1 = k
    · simp [ainsert, alookup, h]
    · simp [ainsert, alookup, h, ih]

theorem alookup_aerase_self {β : Type} (k : String) (l : List (String × β)) :
    alookup k (aerase k l) = none := by
  induction l with
  | nil => simp [aerase, alookup]
  | cons p ps ih =>
    by_cases h : p.1 = k
    · simpa [aerase, List.filter, h] using ih
    · simpa [aerase, List.filter, h, alookup] using ih

theorem not_mem_keys_aerase {β : Type} (k : String) (l : List (String × β)) :
    k ∉ (aerase k l).map (fun p => p.1) := by
  intro hmem
  rcases List.mem_map.mp hmem with ⟨p, hp, hpk⟩
  rcases List.mem_filter.mp hp with ⟨-, hne⟩
  simp [hpk] at hne

/-! ## C1 — pairing of chunks and vectors in add_pdf -/

/-- C1 counterexample: `add_pdf` accepts one chunk together with two
vectors — it returns `true` and stores 2 vectors against 1 chunk, so the
claimed invariant `len(vectors) == len(chunks)` is broken with no
`DimensionMismatch` of any kind. -/
theorem add_pdf_pairing_counterexample :
    (add_pdf (@emptyStore Nat) "a" [7] [[1, 2], [3, 4]]).2 = true ∧
    ((alookup "a" (add_pdf (@emptyStore Nat) "a" [7] [[1, 2], [3, 4]]).1.indexes).map
      (fun idx => idx.vectors.length)) = some 2 ∧
    ((alookup "a" (add_pdf (@emptyStore Nat) "a" [7] [[1, 2], [3, 4]]).1.chunks_data).map
      List.length) = some 1 := by
  refine ⟨rfl, ?_, ?_⟩ <;> rfl

/-- C1 (amended): `add_pdf` performs no cross-length check at all: for any
non-empty rectangular embedding matrix it succeeds, storing exactly the
given embeddings as the document's vectors and exactly the given chunk
list as its chunks, replacing whatever was stored under the id before —
so the stored vector count equals the embedding count and the stored
chunk count equals the chunk count, and the two can differ freely. -/
theorem add_pdf_stores_both_lists (vs : VectorStore Nat) (pdf_id : String)
    (chunks : List Nat) (embeddings : List (List ℚ)) (d : Nat)
    (hne : embeddings ≠ []) (hdim : uniformDim embeddings = some d) :
    (add_pdf vs pdf_id chunks embeddings).2 = true ∧
    alookup pdf_id (add_pdf vs pdf_id chunks embeddings).1.indexes =
      some ⟨d, embeddings⟩ ∧
    alookup pdf_id (add_pdf vs pdf_id chunks embeddings).1.chunks_data =
      some chunks ∧
    ((alookup pdf_id (add_pdf vs pdf_id chunks embeddings).1.indexes).map
      (fun idx => idx.vectors.length)) = some embeddings.length ∧
    ((alookup pdf_id (add_pdf vs pdf_id chunks embeddings).1.chunks_data).map
      List.length) = some chunks.length := by
  simp [add_pdf, hne, hdim, alookup_ainsert_self]

theorem add_pdf_stores_both_lists_witness :
    ([[1, 2], [3, 4]] : List (List ℚ)) ≠ [] ∧
    ((add_pdf (@emptyStore Nat) "a" [7] [[1, 2], [3, 4]]).2 = true ∧
      alookup "a" (add_pdf (@emptyStore Nat) "a" [7] [[1, 2], [3, 4]]).1.indexes =
        some ⟨2, [[1, 2], [3, 4]]⟩ ∧
      alookup "a" (add_pdf (@emptyStore Nat) "a" [7] [[1, 2], [3, 4]]).1.chunks_data =
        some [7] ∧
      ((alookup "a" (add_pdf (@emptyStore Nat) "a" [7] [[1, 2], [3, 4]]).1.indexes).map
        (fun idx => idx.vectors.length)) = some ([[1, 2], [3, 4]] : List (List ℚ)).length ∧
      ((alookup "a" (add_pdf (@emptyStore Nat) "a" [7] [[1, 2], [3, 4]]).1.chunks_data).map
        List.length) = some ([7] : List Nat).length) :=
  ⟨by simp, add_pdf_stores_both_lists emptyStore "a" [7] [[1, 2], [3, 4]] 2
    (by simp) rfl⟩

/-! ## C6 — re-ingestion of an existing document id -/

/-- C6 counterexample: `"a"` is already stored in `stOne` with chunk list
`[0]`, yet a second `add_pdf` for the same id returns `true` (no
`AlreadyExists`) and silently replaces the stored chunks with `[42]`. -/
theorem add_pdf_existing_counterexample :
    alookup "a" stOne.chunks_data = some [0] ∧
    (add_pdf stOne "a" [42] [[5]]).2 = true ∧
    alookup "a" (add_pdf stOne "a" [42] [[5]]).1.chunks_data = some [42] := by
  refine ⟨rfl, rfl, rfl⟩

/-- C6 (amended): `add_pdf` on an id that is already present does not fail:
it returns `true` and replaces the stored index and chunk list with the new
data (an implicit overwrite, never an `AlreadyExists` error). -/
theorem add_pdf_overwrites_existing (vs : VectorStore Nat) (pdf_id : String)
    (oldIdx : FaissIndex) (oldChunks chunks : List Nat)
    (embeddings : List (List ℚ)) (d : Nat)
    (hidx : alookup pdf_id vs.indexes = some oldIdx)
    (hch : alookup pdf_id vs.chunks_data = some oldChunks)
    (hne : embeddings ≠ []) (hdim : uniformDim embeddings = some d) :
    (add_pdf vs pdf_id chunks embeddings).2 = true ∧
    alookup pdf_id (add_pdf vs pdf_id chunks embeddings).1.indexes =
      some ⟨d, embeddings⟩ ∧
    alookup pdf_id (add_pdf vs pdf_id chunks embeddings).1.chunks_data =
      some chunks := by
  simp [add_pdf, hne, hdim, alookup_ainsert_self]

theorem add_pdf_overwrites_existing_witness :
    (add_pdf stOne "a" [42] [[5]]).2 = true ∧
    alookup "a" (add_pdf stOne "a" [42] [[5]]).1.indexes = some ⟨1, [[5]]⟩ ∧
    alookup "a" (add_pdf stOne "a" [42] [[5]]).1.chunks_data = some [42] :=
  add_pdf_overwrites_existing stOne "a" ⟨1, [[1]]⟩ [0] [42] [[5]] 1 rfl rfl
    (by simp) rfl

/-! ## C8 — search with a query of the wrong dimension -/

/-- C8 counterexample: `st3`'s index has dimension 3, and a 4-dimensional
query makes `search` return the empty result list — the FAISS dimension
assertion is swallowed by the bare `except`, and no `DimensionMismatch`
reaches the caller. -/
theorem search_wrong_dim_counterexample :
    VectorStore.search st3 "doc" [0, 0, 0, 0] 3 = [] := by
  have hidx : alookup "doc" st3.indexes =
      some ⟨3, [[0, 0, 0], [1, 0, 0], [1, 1, 1]]⟩ := rfl
  have hch : alookup "doc" st3.chunks_data = some [10, 11, 12] := rfl
  simp [VectorStore.search, hidx, hch]

/-- C8 (amended): for any stored index, a query whose length differs from
the index dimension makes `search` return `[]` (the library error is
caught by the bare `except` and logged), rather than surfacing a
`DimensionMismatch` error to the caller. -/
theorem search_wrong_dim_returns_empty {α : Type} (vs : VectorStore α)
    (pdf_id : String) (q : List ℚ) (top_k : Nat) (idx : FaissIndex)
    (hidx : alookup pdf_id vs.indexes = some idx) (hq : q.length ≠ idx.d) :
    vs.search pdf_id q top_k = [] := by
  unfold VectorStore.search
  rw [hidx]
  cases h : alookup pdf_id vs.chunks_data with
  | none => rfl
  | some chunks => simp [hq]

theorem search_wrong_dim_returns_empty_witness :
    VectorStore.search st3 "doc" [0] 5 = [] :=
  search_wrong_dim_returns_empty st3 "doc" [0] 5
    ⟨3, [[0, 0, 0], [1, 0, 0], [1, 1, 1]]⟩ rfl (by simp)

/-! ## C7 — retrieval on an unknown document id -/

/-- C7 counterexample: searching id `"a"` in a store that does not contain
it gives exactly the same `[]` — and exactly the same HTTP-level
`success=False` response — as searching id `"a"` in `stEmptyChunks`, where
`"a"` is present but the query matches zero chunks. The unknown id is
not reported through any signal distinguishable from zero matches. -/
theorem search_unknown_id_counterexample :
    alookup "a" (@emptyStore Nat).indexes = none ∧
    (alookup "a" stEmptyChunks.indexes).isSome = true ∧
    VectorStore.search (@emptyStore Nat) "a" [0] 5 = [] ∧
    VectorStore.search stEmptyChunks "a" [0] 5 = [] ∧
    search_response (@emptyStore Nat) "a" [0] 5 =
      search_response stEmptyChunks "a" [0] 5 := by
  have h1 : VectorStore.search (@emptyStore Nat) "a" [0] 5 = [] := rfl
  have h2 : VectorStore.search stEmptyChunks "a" [0] 5 = [] := by
    have hidx : alookup "a" stEmptyChunks.indexes = some ⟨1, [[1], [2]]⟩ := rfl
    have hch : alookup "a" stEmptyChunks.chunks_data = some ([] : List Nat) := rfl
    simp [VectorStore.search, hidx, hch, faissSearch, buildResults]
  refine ⟨rfl, rfl, h1, h2, ?_⟩
  simp [search_response, h1, h2]

/-- C7 (amended): `search` on an id absent from the catalog returns the
empty list — the same value a zero-match query returns — and the
`/api/search` endpoint maps it to `success=False` with the generic
"No results found" message; no dedicated NotFound signal exists. -/
theorem search_unknown_id_empty {α : Type} (vs : VectorStore α)
    (pdf_id : String) (q : List ℚ) (top_k : Nat)
    (h : alookup pdf_id vs.indexes = none) :
    vs.search pdf_id q top_k = [] ∧
    search_response vs pdf_id q top_k =
      (false, [], "No results found for PDF " ++ pdf_id) := by
  have hs : vs.search pdf_id q top_k = [] := by
    unfold VectorStore.search
    rw [h]
  exact ⟨hs, by simp [search_response, hs]⟩

theorem search_unknown_id_empty_witness :
    VectorStore.search stOne "b" [0] 5 = [] ∧
    search_response stOne "b" [0] 5 =
      (false, [], "No results found for PDF " ++ "b") :=
  search_unknown_id_empty stOne "b" [0] 5 rfl

/-! ## C9 — delete_pdf semantics -/

/-- C9 (confirmed): deleting a stored id removes the in-memory index and
chunk entry and both persisted artifacts and returns `true`; afterwards
`list_pdfs` no longer contains the id, `get_pdf_info` returns `none`
(the NotFound signal), and a second delete returns `false`. Deleting an
absent id changes nothing and returns `false`. -/
theorem delete_pdf_spec {α : Type} (vs : VectorStore α) (pdf_id : String) :
    ((alookup pdf_id vs.indexes).isSome = true →
      (delete_pdf vs pdf_id).2 = true ∧
      pdf_id ∉ list_pdfs (delete_pdf vs pdf_id).1 ∧
      alookup pdf_id (delete_pdf vs pdf_id).1.chunks_data = none ∧
      get_pdf_info (delete_pdf vs pdf_id).1 pdf_id = none ∧
      alookup pdf_id (delete_pdf vs pdf_id).1.disk_indexes = none ∧
      alookup pdf_id (delete_pdf vs pdf_id).1.disk_chunks = none ∧
      (delete_pdf (delete_pdf vs pdf_id).1 pdf_id).2 = false) ∧
    (alookup pdf_id vs.indexes = none → delete_pdf vs pdf_id = (vs, false)) := by
  constructor
  · intro h
    have hdel : delete_pdf vs pdf_id =
        ({ indexes := aerase pdf_id vs.indexes,
           chunks_data := aerase pdf_id vs.chunks_data,
           disk_indexes := aerase pdf_id vs.disk_indexes,
           disk_chunks := aerase pdf_id vs.disk_chunks }, true) := by
      simp [delete_pdf, h]
    refine ⟨by simp [hdel], ?_, ?_, ?_, ?_, ?_, ?_⟩
    · rw [hdel]
      exact not_mem_keys_aerase pdf_id vs.indexes
    · rw [hdel]
      exact alookup_aerase_self pdf_id vs.chunks_data
    · rw [hdel]
      simp [get_pdf_info, alookup_aerase_self]
    · rw [hdel]
      exact alookup_aerase_self pdf_id vs.disk_indexes
    · rw [hdel]
      exact alookup_aerase_self pdf_id vs.disk_chunks
    · rw [hdel]
      simp [delete_pdf, alookup_aerase_self]
  · intro h
    simp [delete_pdf, h]

theorem delete_pdf_spec_witness :
    ((delete_pdf stOne "a").2 = true ∧
      "a" ∉ list_pdfs (delete_pdf stOne "a").1 ∧
      alookup "a" (delete_pdf stOne "a").1.chunks_data = none ∧
      get_pdf_info (delete_pdf stOne "a").1 "a" = none ∧
      alookup "a" (delete_pdf stOne "a").1.disk_indexes = none ∧
      alookup "a" (delete_pdf stOne "a").1.disk_chunks = none ∧
      (delete_pdf (delete_pdf stOne "a").1 "a").2 = false) ∧
    delete_pdf stOne "b" = (stOne, false) :=
  ⟨(delete_pdf_spec stOne "a").1 rfl, (delete_pdf_spec stOne "b").2 rfl⟩

/-! ## C10 — overlap seeding skipped when the joined chunk fits -/

/-- C10 (confirmed): when a chunk is closed on overflow and the joined
text of the whole closed chunk has length at most `overlap`, the next
chunk is seeded empty — regardless of whether individual sentences would
fit the overlap budget — and carry-over can only happen when the joined
text is strictly longer than `overlap`. -/
theorem overlap_seed_empty_when_joined_fits (cfg : ChunkerCfg)
    (chunks current : List String) (size : Int) (sentence : String)
    (hover : size + (sentence.length : Int) > cfg.chunk_size)
    (hcur : current ≠ []) :
    ((((String.intercalate " " current).length : Int) ≤ cfg.overlap →
      overlapSeed cfg.overlap current = ([], 0) ∧
      buildStep cfg (chunks, current, size) sentence =
        (chunks ++ [String.intercalate " " current], [sentence],
          (sentence.length : Int)))) ∧
    (∀ seed sz, overlapSeed cfg.overlap current = (seed, sz) → seed ≠ [] →
      cfg.overlap < ((String.intercalate " " current).length : Int)) := by
  constructor
  · intro hle
    have hseed : overlapSeed cfg.overlap current = ([], 0) := by
      unfold overlapSeed
      rw [if_neg (not_lt.mpr hle)]
    refine ⟨hseed, ?_⟩
    unfold buildStep
    rw [if_pos ⟨hover, hcur⟩, hseed]
    simp
  · intro seed sz heq hne
    by_contra hnot
    unfold overlapSeed at heq
    rw [if_neg hnot] at heq
    exact hne (by simpa using congrArg Prod.fst heq.symm)

theorem overlap_seed_empty_when_joined_fits_witness :
    (∀ s ∈ ["ab", "cd"], (s.length : Int) ≤ (5 : Int)) ∧
    (overlapSeed 5 ["ab", "cd"] = ([], 0) ∧
      buildStep ⟨5, 5⟩ ([], ["ab", "cd"], 4) "xy" =
        ([] ++ [String.intercalate " " ["ab", "cd"]], ["xy"],
          (String.length "xy" : Int))) :=
  ⟨by decide,
    (overlap_seed_empty_when_joined_fits ⟨5, 5⟩ [] ["ab", "cd"] 4 "xy"
      (by decide) (by decide)).1 (by decide)⟩

/-! ## C3 — degenerate chunker parameters -/

theorem intercalate_singleton (c : String) : String.intercalate " " [c] = c := by
  simp [String.intercalate, String.intercalate.go]

theorem length_pos_of_ne_empty (s : String) (h : s ≠ "") : 0 < s.length := by
  cases s with
  | mk data =>
    cases data with
    | nil => simp at h
    | cons a l => simp [String.length]

/-- With `chunk_size ≤ 0` and `overlap ≤ 0`, every loop iteration closes
the current chunk (always a single sentence) and seeds the next one
empty, so the fold emits one chunk per sentence. -/
theorem foldl_buildStep_nonpos (cs ov : Int) (hcs : cs ≤ 0) (hov : ov ≤ 0) :
    ∀ (l : List String), (∀ s ∈ l, s ≠ "") →
    ∀ (ch : List String) (c : String), c ≠ "" →
    (let st := l.foldl (buildStep ⟨cs, ov⟩) (ch, [c], (c.length : Int))
     if st.2.1 = [] then st.1 else st.1 ++ [String.intercalate " " st.2.1]) =
      ch ++ c :: l := by
  intro l
  induction l with
  | nil =>
    intro _ ch c hc
    simp [List.foldl, intercalate_singleton]
  | cons s rest ih =>
    intro hl ch c hc
    have hs : s ≠ "" := hl s (List.mem_cons_self s rest)
    have hrest : ∀ x ∈ rest, x ≠ "" := fun x hx => hl x (List.mem_cons_of_mem s hx)
    have hcpos : (1 : Int) ≤ (c.length : Int) := by
      exact_mod_cast length_pos_of_ne_empty c hc
    have hspos : (1 : Int) ≤ (s.length : Int) := by
      exact_mod_cast length_pos_of_ne_empty s hs
    have hstep : buildStep ⟨cs, ov⟩ (ch, [c], (c.length : Int)) s =
        (ch ++ [c], [s], (s.length : Int)) := by
      have hseed : overlapSeed ov [c] = ([], 0) := by
        unfold overlapSeed
        rw [if_pos (by rw [intercalate_singleton]; omega)]
        show seedWalk ov [c].reverse [] 0 = ([], 0)
        simp only [List.reverse_singleton]
        unfold seedWalk
        rw [if_neg (by omega)]
      have hcond : (c.length : Int) + (s.length : Int) > cs := by omega
      unfold buildStep
      rw [if_pos ⟨hcond, by simp⟩, hseed]
      simp [intercalate_singleton]
    rw [List.foldl_cons, hstep, ih hrest (ch ++ [c]) s hs]
    simp

/-- C3 counterexample: `chunk_size = 0 ≤ 0` (and `overlap = 0`) does not
make the chunker fail with `ConfigError` — no parameter validation exists
anywhere in `TextChunker` — instead it silently returns output (one chunk
per sentence). -/
theorem chunker_invalid_params_counterexample :
    chunk_text ⟨0, 0⟩ "Aa. Bb." none =
      [⟨0, "Aa.", 3, 1, none, 0⟩, ⟨1, "Bb.", 3, 1, none, 1⟩] := by decide

/-- C3 (amended): the chunker never validates `chunk_size` or `overlap`
and raises no `ConfigError`; it always terminates (a single pass over the
sentence list). In the violating region `chunk_size ≤ 0`, `overlap ≤ 0` it
silently produces one chunk per sentence. -/
theorem build_chunks_invalid_params_no_error (cs ov : Int) (hcs : cs ≤ 0)
    (hov : ov ≤ 0) (sentences : List String)
    (hs : ∀ s ∈ sentences, s ≠ "") :
    build_chunks ⟨cs, ov⟩ sentences = sentences := by
  cases sentences with
  | nil => rfl
  | cons c rest =>
    have hc : c ≠ "" := hs c (List.mem_cons_self c rest)
    have hrest : ∀ x ∈ rest, x ≠ "" := fun x hx => hs x (List.mem_cons_of_mem c hx)
    have hstep0 : buildStep ⟨cs, ov⟩ ([], [], 0) c = ([], [c], (c.length : Int)) := by
      unfold buildStep
      rw [if_neg (fun h => h.2 rfl)]
      simp
    have := foldl_buildStep_nonpos cs ov hcs hov rest hrest [] c hc
    simp only [build_chunks, List.foldl_cons, hstep0]
    simpa using this

theorem build_chunks_invalid_params_witness :
    ((0 : Int) ≤ 0) ∧ (∀ s ∈ ["Aa.", "Bb."], s ≠ "") ∧
    build_chunks ⟨0, 0⟩ ["Aa.", "Bb."] = ["Aa.", "Bb."] :=
  ⟨by decide, by decide,
    build_chunks_invalid_params_no_error 0 0 (by decide) (by decide)
      ["Aa.", "Bb."] (by decide)⟩

/-! ## C4 — chunks are whole sentences joined by single spaces -/

theorem withMeta_get (pid : Option String) :
    ∀ (ts : List String) (i0 i : Nat) (h : i < (withMeta pid i0 ts).length),
    ((withMeta pid i0 ts).get ⟨i, h⟩).chunk_id = i0 + i ∧
    ((withMeta pid i0 ts).get ⟨i, h⟩).position = i0 + i := by
  intro ts
  induction ts with
  | nil => intro i0 i h; simp [withMeta] at h
  | cons t rest ih =>
    intro i0 i h
    cases i with
    | zero => simp [withMeta]
    | succ n =>
      have h' : n < (withMeta pid (i0 + 1) rest).length := by
        simpa [withMeta] using h
      have := ih (i0 + 1) n h'
      constructor
      · show ((withMeta pid i0 (t :: rest)).get ⟨n + 1, h⟩).chunk_id = i0 + (n + 1)
        simp only [withMeta, List.get_cons_succ]
        exact this.1.trans (by omega)
      · simp only [withMeta, List.get_cons_succ]
        exact this.2.trans (by omega)

theorem withMeta_text_mem (pid : Option String) :
    ∀ (ts : List String) (i : Nat) (ch : ChunkDict),
    ch ∈ withMeta pid i ts → ch.text ∈ ts := by
  intro ts
  induction ts with
  | nil => intro i ch h; simp [withMeta] at h
  | cons t rest ih =>
    intro i ch h
    rcases (List.mem_cons).mp h with h0 | h1
    · subst h0; exact List.mem_cons_self _ _
    · exact List.mem_cons_of_mem _ (ih (i + 1) ch h1)

theorem seedWalk_mem (ov : Int) :
    ∀ (l acc : List String) (n : Int) (s : String),
    s ∈ (seedWalk ov l acc n).1 → s ∈ l ∨ s ∈ acc := by
  intro l
  induction l with
  | nil => intro acc n s h; exact Or.inr (by simpa [seedWalk] using h)
  | cons a rest ih =>
    intro acc n s h
    unfold seedWalk at h
    split at h
    · rcases ih (a :: acc) _ s h with hl | hacc
      · exact Or.inl (List.mem_cons_of_mem a hl)
      · rcases (List.mem_cons).mp hacc with rfl | hacc'
        · exact Or.inl (List.mem_cons_self _ _)
        · exact Or.inr hacc'
    · exact Or.inr h

theorem overlapSeed_mem (ov : Int) (cur : List String) (s : String)
    (h : s ∈ (overlapSeed ov cur).1) : s ∈ cur := by
  unfold overlapSeed at h
  split at h
  · rcases seedWalk_mem ov cur.reverse [] 0 s h with hl | hacc
    · exact List.mem_reverse.mp hl
    · simp at hacc
  · simp at h

theorem foldl_buildStep_sentences (cfg : ChunkerCfg) (S : List String) :
    ∀ (l : List String), (∀ s ∈ l, s ∈ S) →
    ∀ (ch cur : List String) (sz : Int),
    (∀ t ∈ ch, ∃ u, u ≠ [] ∧ (∀ s ∈ u, s ∈ S) ∧ t = String.intercalate " " u) →
    (∀ s ∈ cur, s ∈ S) →
    (∀ t ∈ (l.foldl (buildStep cfg) (ch, cur, sz)).1,
      ∃ u, u ≠ [] ∧ (∀ s ∈ u, s ∈ S) ∧ t = String.intercalate " " u) ∧
    (∀ s ∈ (l.foldl (buildStep cfg) (ch, cur, sz)).2.1, s ∈ S) := by
  intro l
  induction l with
  | nil => intro _ ch cur sz hch hcur; exact ⟨hch, hcur⟩
  | cons a rest ih =>
    intro hl ch cur sz hch hcur
    have ha : a ∈ S := hl a (List.mem_cons_self a rest)
    have hrest : ∀ s ∈ rest, s ∈ S := fun s hs => hl s (List.mem_cons_of_mem a hs)
    rw [List.foldl_cons]
    by_cases hcond : sz + (a.length : Int) > cfg.chunk_size ∧ cur ≠ []
    · have hstep : buildStep cfg (ch, cur, sz) a =
          (ch ++ [String.intercalate " " cur],
            (overlapSeed cfg.overlap cur).1 ++ [a],
            (overlapSeed cfg.overlap cur).2 + (a.length : Int)) := by
        unfold buildStep
        rw [if_pos hcond]
      rw [hstep]
      refine ih hrest _ _ _ ?_ ?_
      · intro t ht
        rcases List.mem_append.mp ht with h1 | h2
        · exact hch t h1
        · refine ⟨cur, hcond.2, hcur, ?_⟩
          simpa using h2
      · intro s hs
        rcases List.mem_append.mp hs with h1 | h2
        · exact hcur s (overlapSeed_mem cfg.overlap cur s h1)
        · have hsa : s = a := by simpa using h2
          exact hsa ▸ ha
    · have hstep : buildStep cfg (ch, cur, sz) a =
          (ch, cur ++ [a], sz + (a.length : Int)) := by
        unfold buildStep
        rw [if_neg hcond]
      rw [hstep]
      refine ih hrest _ _ _ hch ?_
      intro s hs
      rcases List.mem_append.mp hs with h1 | h2
      · exact hcur s h1
      · have hsa : s = a := by simpa using h2
        exact hsa ▸ ha

theorem build_chunks_mem (cfg : ChunkerCfg) (sentences : List String)
    (t : String) (ht : t ∈ build_chunks cfg sentences) :
    ∃ u, u ≠ [] ∧ (∀ s ∈ u, s ∈ sentences) ∧ t = String.intercalate " " u := by
  have main := foldl_buildStep_sentences cfg sentences sentences
    (fun s hs => hs) [] [] 0 (by simp) (by simp)
  simp only [build_chunks] at ht
  split at ht
  · exact main.1 t ht
  · rename_i hne
    rcases List.mem_append.mp ht with h1 | h2
    · exact main.1 t h1
    · refine ⟨(sentences.foldl (buildStep cfg) ([], [], 0)).2.1, hne, main.2, ?_⟩
      simpa using h2

/-- C4 (confirmed): every chunk `chunk_text` emits has its `chunk_id` (and
`position`) equal to its emission-order index starting at 0, and its text
is a concatenation of whole sentences of the normalized input joined by
single spaces — sentences are never split, so a sentence longer than
`chunk_size` still appears whole. -/
theorem chunk_text_sentence_aligned (cfg : ChunkerCfg) (text : String)
    (pid : Option String) :
    (∀ i (h : i < (chunk_text cfg text pid).length),
      ((chunk_text cfg text pid).get ⟨i, h⟩).chunk_id = i ∧
      ((chunk_text cfg text pid).get ⟨i, h⟩).position = i) ∧
    (∀ ch ∈ chunk_text cfg text pid, ∃ u, u ≠ [] ∧
      (∀ s ∈ u, s ∈ split_into_sentences (clean_text text)) ∧
      ch.text = String.intercalate " " u) := by
  by_cases hempty : (pyStrip text.data).isEmpty
  · have heq : chunk_text cfg text pid = [] := by
      simp [chunk_text, hempty]
    rw [heq]
    exact ⟨fun i h => by simp at h, fun ch h => by simp at h⟩
  · have heq : chunk_text cfg text pid =
        withMeta pid 0 (build_chunks cfg (split_into_sentences (clean_text text))) := by
      simp [chunk_text, hempty]
    rw [heq]
    constructor
    · intro i h
      have := withMeta_get pid
        (build_chunks cfg (split_into_sentences (clean_text text))) 0 i h
      simpa using this
    · intro ch h
      have htext := withMeta_text_mem pid _ 0 ch h
      exact build_chunks_mem cfg _ ch.text htext

theorem chunk_text_sentence_aligned_witness :
    (0 < (chunk_text ⟨10, 3⟩ "Hi. Yo." none).length) ∧
    (((chunk_text ⟨10, 3⟩ "Hi. Yo." none).get
        ⟨0, by decide⟩).chunk_id = 0 ∧
      ((chunk_text ⟨10, 3⟩ "Hi. Yo." none).get
        ⟨0, by decide⟩).position = 0) ∧
    (∃ u, u ≠ [] ∧
      (∀ s ∈ u, s ∈ split_into_sentences (clean_text "Hi. Yo.")) ∧
      (⟨0, "Hi. Yo.", 7, 2, none, 0⟩ : ChunkDict).text =
        String.intercalate " " u) :=
  ⟨by decide,
    (chunk_text_sentence_aligned ⟨10, 3⟩ "Hi. Yo." none).1 0 (by decide),
    (chunk_text_sentence_aligned ⟨10, 3⟩ "Hi. Yo." none).2
      ⟨0, "Hi. Yo.", 7, 2, none, 0⟩ (by decide)⟩

/-! ## C2 — exact k-nearest-neighbour semantics of search -/

theorem sqL2_nonneg (q v : List ℚ) : 0 ≤ sqL2 q v := by
  unfold sqL2
  apply List.sum_nonneg
  intro x hx
  rcases List.mem_map.mp hx with ⟨p, -, rfl⟩
  exact sq_nonneg _

theorem distFrom_length (q : List ℚ) :
    ∀ (vecs : List (List ℚ)) (i : Nat), (distFrom q i vecs).length = vecs.length := by
  intro vecs
  induction vecs with
  | nil => intro i; rfl
  | cons v rest ih => intro i; simp [distFrom, ih]

theorem mem_distFrom (q : List ℚ) :
    ∀ (vecs : List (List ℚ)) (i : Nat) (p : ℚ × Nat), p ∈ distFrom q i vecs →
    ∃ j v, vecs[j]? = some v ∧ p.1 = sqL2 q v ∧ p.2 = i + j := by
  intro vecs
  induction vecs with
  | nil => intro i p h; simp [distFrom] at h
  | cons v rest ih =>
    intro i p h
    rcases (List.mem_cons).mp h with h0 | h1
    · exact ⟨0, v, by simp, by simp [h0], by simp [h0]⟩
    · rcases ih (i + 1) p h1 with ⟨j, w, hget, h1', h2'⟩
      exact ⟨j + 1, w, by simpa using hget, h1', by omega⟩

theorem distFrom_mem_of_get (q : List ℚ) :
    ∀ (vecs : List (List ℚ)) (i j : Nat) (v : List ℚ), vecs[j]? = some v →
    (sqL2 q v, i + j) ∈ distFrom q i vecs := by
  intro vecs
  induction vecs with
  | nil => intro i j v h; simp at h
  | cons w rest ih =>
    intro i j v h
    cases j with
    | zero =>
      simp only [List.getElem?_cons_zero, Option.some_inj] at h
      subst h
      simp [distFrom]
    | succ n =>
      simp only [List.getElem?_cons_succ] at h
      have := ih (i + 1) n v h
      have harith : (i + 1) + n = i + (n + 1) := by omega
      rw [harith] at this
      exact List.mem_cons_of_mem _ this

theorem distFrom_map_snd (q : List ℚ) :
    ∀ (vecs : List (List ℚ)) (i : Nat),
    (distFrom q i vecs).map Prod.snd = List.range' i vecs.length := by
  intro vecs
  induction vecs with
  | nil => intro i; rfl
  | cons v rest ih => intro i; simp [distFrom, ih, List.range'_succ]

theorem buildResults_length {α : Type} (chunks : List α) :
    ∀ (hits : List (ℚ × Nat)) (i : Nat), (∀ p ∈ hits, p.2 < chunks.length) →
    (buildResults chunks i hits).length = hits.length := by
  intro hits
  induction hits with
  | nil => intro i _; rfl
  | cons p rest ih =>
    intro i hb
    obtain ⟨dist, j⟩ := p
    have hj : j < chunks.length := hb (dist, j) (List.mem_cons_self _ _)
    simp only [buildResults, dif_pos hj, List.length_cons]
    rw [ih (i + 1) (fun x hx => hb x (List.mem_cons_of_mem _ hx))]

theorem buildResults_map_rank {α : Type} (chunks : List α) :
    ∀ (hits : List (ℚ × Nat)) (i : Nat), (∀ p ∈ hits, p.2 < chunks.length) →
    (buildResults chunks i hits).map (fun r => r.rank) =
      List.range' (i + 1) hits.length := by
  intro hits
  induction hits with
  | nil => intro i _; rfl
  | cons p rest ih =>
    intro i hb
    obtain ⟨dist, j⟩ := p
    have hj : j < chunks.length := hb (dist, j) (List.mem_cons_self _ _)
    simp only [buildResults, dif_pos hj, List.map_cons, List.length_cons,
      List.range'_succ]
    rw [ih (i + 1) (fun x hx => hb x (List.mem_cons_of_mem _ hx))]

theorem buildResults_map_sim {α : Type} (chunks : List α) :
    ∀ (hits : List (ℚ × Nat)) (i : Nat), (∀ p ∈ hits, p.2 < chunks.length) →
    (buildResults chunks i hits).map (fun r => r.similarity_score) =
      hits.map (fun p => 1 / (1 + p.1)) := by
  intro hits
  induction hits with
  | nil => intro i _; rfl
  | cons p rest ih =>
    intro i hb
    obtain ⟨dist, j⟩ := p
    have hj : j < chunks.length := hb (dist, j) (List.mem_cons_self _ _)
    simp only [buildResults, dif_pos hj, List.map_cons]
    rw [ih (i + 1) (fun x hx => hb x (List.mem_cons_of_mem _ hx))]

theorem mem_buildResults {α : Type} (chunks : List α) :
    ∀ (hits : List (ℚ × Nat)) (i : Nat) (r : SearchResult α),
    r ∈ buildResults chunks i hits →
    ∃ p ∈ hits, ∃ (h : p.2 < chunks.length),
      r.chunk = chunks.get ⟨p.2, h⟩ ∧ r.similarity_score = 1 / (1 + p.1) := by
  intro hits
  induction hits with
  | nil => intro i r h; simp [buildResults] at h
  | cons p rest ih =>
    intro i r h
    obtain ⟨dist, j⟩ := p
    by_cases hj : j < chunks.length
    · rw [buildResults, dif_pos hj] at h
      rcases (List.mem_cons).mp h with h0 | h1
      · exact ⟨(dist, j), List.mem_cons_self _ _, hj, by simp [h0], by simp [h0]⟩
      · rcases ih (i + 1) r h1 with ⟨p', hp', hlt, hc, hs⟩
        exact ⟨p', List.mem_cons_of_mem _ hp', hlt, hc, hs⟩
    · rw [buildResults, dif_neg hj] at h
      rcases ih (i + 1) r h with ⟨p', hp', hlt, hc, hs⟩
      exact ⟨p', List.mem_cons_of_mem _ hp', hlt, hc, hs⟩

/-- Concrete evaluation: the three stored vectors of `st3` lie at squared
distances 0, 1 and 3 from the query `[0,0,0]`. -/
theorem faiss_st3_eval :
    faissSearch ⟨3, [[0,0,0], [1,0,0], [1,1,1]]⟩ [0,0,0] 3 =
      [((0:ℚ), 0), (1, 1), (3, 2)] := by
  have hd : distFrom [0,0,0] 0 [[0,0,0], [1,0,0], [1,1,1]] =
      [((0:ℚ), 0), (1, 1), (3, 2)] := by
    norm_num [distFrom, sqL2]
  simp only [faissSearch, hd]
  norm_num [List.insertionSort, List.orderedInsert, hitLE]

/-- Concrete evaluation of the ranking example: ranks 1, 2, 3 with
similarities 1, 1/2, 1/4. -/
theorem search_st3_eval :
    VectorStore.search st3 "doc" [0,0,0] 3 =
      [⟨10, 1, 1⟩, ⟨11, 1/2, 2⟩, ⟨12, 1/4, 3⟩] := by
  have hidx : alookup "doc" st3.indexes =
      some ⟨3, [[0,0,0], [1,0,0], [1,1,1]]⟩ := rfl
  have hch : alookup "doc" st3.chunks_data = some [10, 11, 12] := rfl
  simp only [VectorStore.search, hidx, hch]
  rw [show min 3 ([10, 11, 12] : List Nat).length = 3 from rfl, faiss_st3_eval]
  norm_num [buildResults]

/-- C2 (confirmed): for a stored index whose chunk and vector counts agree
and a query of the index's dimension, `search` computes exact squared
Euclidean distances to every stored vector; the `min(top_k, stored_count)`
selected hits are the smallest distances with ties broken towards the
lower stored index, each stored vector is selected at most once; each
result carries similarity `1/(1+d)` for its vector's exact distance `d`
and the position-matched chunk; results are in descending-similarity order
with dense 1-based ranks. -/
theorem search_exact_knn {α : Type} (vs : VectorStore α) (pdf_id : String)
    (q : List ℚ) (top_k : Nat) (idx : FaissIndex) (chunks : List α)
    (hidx : alookup pdf_id vs.indexes = some idx)
    (hch : alookup pdf_id vs.chunks_data = some chunks)
    (hcnt : idx.vectors.length = chunks.length)
    (hq : q.length = idx.d) :
    (vs.search pdf_id q top_k).length = min top_k chunks.length ∧
    ((vs.search pdf_id q top_k).map (fun r => r.rank) =
      List.range' 1 (min top_k chunks.length)) ∧
    ((vs.search pdf_id q top_k).map
      (fun r => r.similarity_score)).Sorted (· ≥ ·) ∧
    (∀ r ∈ vs.search pdf_id q top_k, ∃ (j : Nat) (v : List ℚ),
      idx.vectors[j]? = some v ∧
      chunks[j]? = some r.chunk ∧ r.similarity_score = 1 / (1 + sqL2 q v)) ∧
    (∀ p ∈ faissSearch idx q (min top_k chunks.length),
      (∃ (v : List ℚ), idx.vectors[p.2]? = some v ∧ p.1 = sqL2 q v) ∧
      ∀ (j : Nat) (v : List ℚ), idx.vectors[j]? = some v →
        j ∉ (faissSearch idx q (min top_k chunks.length)).map Prod.snd →
        hitLE p (sqL2 q v, j)) ∧
    ((faissSearch idx q (min top_k chunks.length)).map Prod.snd).Nodup ∧
    VectorStore.search st3 "doc" [0,0,0] 3 =
      [⟨10, 1, 1⟩, ⟨11, 1/2, 2⟩, ⟨12, 1/4, 3⟩] := by
  have hsearch : vs.search pdf_id q top_k =
      buildResults chunks 0 (faissSearch idx q (min top_k chunks.length)) := by
    unfold VectorStore.search
    rw [hidx, hch]
    exact if_pos hq
  set k := min top_k chunks.length with hk
  set dists := distFrom q 0 idx.vectors with hdists
  set srt := List.insertionSort hitLE dists with hsrt
  have hperm : List.Perm srt dists := List.perm_insertionSort hitLE dists
  have hsrtsorted : srt.Sorted hitLE := List.sorted_insertionSort hitLE dists
  have hfaiss : faissSearch idx q k = srt.take k := rfl
  have hits_sub : ∀ p ∈ faissSearch idx q k, p ∈ dists := by
    intro p hp
    rw [hfaiss] at hp
    exact hperm.mem_iff.mp (List.mem_of_mem_take hp)
  have hits_spec : ∀ p ∈ faissSearch idx q k,
      ∃ (v : List ℚ), idx.vectors[p.2]? = some v ∧ p.1 = sqL2 q v := by
    intro p hp
    rcases mem_distFrom q idx.vectors 0 p (hits_sub p hp) with ⟨j, v, hget, h1, h2⟩
    refine ⟨v, ?_, h1⟩
    rwa [h2, Nat.zero_add]
  have hits_bound : ∀ p ∈ faissSearch idx q k, p.2 < chunks.length := by
    intro p hp
    rcases hits_spec p hp with ⟨v, hget, -⟩
    have := List.getElem?_eq_some.mp hget
    rcases this with ⟨hlt, -⟩
    omega
  have hlen : (faissSearch idx q k).length = k := by
    rw [hfaiss, List.length_take, List.Perm.length_eq hperm,
      distFrom_length q idx.vectors 0, hcnt]
    omega
  refine ⟨?_, ?_, ?_, ?_, ?_, ?_, search_st3_eval⟩
  · rw [hsearch, buildResults_length chunks _ 0 hits_bound, hlen]
  · rw [hsearch, buildResults_map_rank chunks _ 0 hits_bound, hlen]
  · rw [hsearch, buildResults_map_sim chunks _ 0 hits_bound]
    have hhits_sorted : (faissSearch idx q k).Sorted hitLE := by
      rw [hfaiss]
      exact hsrtsorted.sublist (List.take_sublist k srt)
    apply List.pairwise_map.mpr
    apply List.Pairwise.imp_of_mem ?_ hhits_sorted
    intro a b ha _ hab
    have hnn : 0 ≤ a.1 := by
      rcases hits_spec a ha with ⟨v, -, h1⟩
      rw [h1]
      exact sqL2_nonneg q v
    have hle : a.1 ≤ b.1 := by
      rcases hab with h | ⟨h, -⟩
      · exact le_of_lt h
      · exact le_of_eq h
    have hpos : (0 : ℚ) < 1 + a.1 := by linarith
    exact one_div_le_one_div_of_le hpos (by linarith)
  · intro r hr
    rw [hsearch] at hr
    rcases mem_buildResults chunks _ 0 r hr with ⟨p, hp, hlt, hc, hs⟩
    rcases hits_spec p hp with ⟨v, hget, h1⟩
    refine ⟨p.2, v, hget, ?_, by rw [hs, h1]⟩
    rw [List.getElem?_eq_getElem hlt, hc]
    simp
  · intro p hp
    refine ⟨hits_spec p hp, ?_⟩
    intro j v hget hnot
    have hmem : (sqL2 q v, j) ∈ dists := by
      have := distFrom_mem_of_get q idx.vectors 0 j v hget
      simpa using this
    have hmem' : (sqL2 q v, j) ∈ srt := hperm.symm.subset hmem
    rw [← List.take_append_drop k srt] at hmem'
    rcases List.mem_append.mp hmem' with htake | hdrop
    · exfalso
      apply hnot
      rw [hfaiss]
      exact List.mem_map.mpr ⟨(sqL2 q v, j), htake, rfl⟩
    · have hsplit := hsrtsorted
      rw [← List.take_append_drop k srt] at hsplit
      have := (List.pairwise_append.mp hsplit).2.2
      rw [hfaiss] at hp
      exact this p hp (sqL2 q v, j) hdrop
  · have h1 : (srt.map Prod.snd).Nodup := by
      have hperm2 : List.Perm (srt.map Prod.snd) (dists.map Prod.snd) := hperm.map Prod.snd
      rw [hperm2.nodup_iff, hdists, distFrom_map_snd q idx.vectors 0]
      exact List.nodup_range' 0 idx.vectors.length
    have h2 : (faissSearch idx q k).map Prod.snd =
        (srt.map Prod.snd).take k := by
      rw [hfaiss, List.map_take]
    rw [h2]
    exact h1.sublist (List.take_sublist k _)

theorem search_exact_knn_witness :
    ((VectorStore.search st3 "doc" [0,0,0] 3).length =
      min 3 ([10, 11, 12] : List Nat).length) ∧
    ((VectorStore.search st3 "doc" [0,0,0] 3).map (fun r => r.rank) =
      List.range' 1 (min 3 ([10, 11, 12] : List Nat).length)) ∧
    ((VectorStore.search st3 "doc" [0,0,0] 3).map
      (fun r => r.similarity_score)).Sorted (· ≥ ·) ∧
    (∃ (j : Nat) (v : List ℚ),
      (⟨3, [[0,0,0], [1,0,0], [1,1,1]]⟩ : FaissIndex).vectors[j]? = some v ∧
      ([10, 11, 12] : List Nat)[j]? = some (⟨10, 1, 1⟩ : SearchResult Nat).chunk ∧
      (⟨10, 1, 1⟩ : SearchResult Nat).similarity_score =
        1 / (1 + sqL2 [0,0,0] v)) := by
  have h := search_exact_knn st3 "doc" [0,0,0] 3
    ⟨3, [[0,0,0], [1,0,0], [1,1,1]]⟩ [10, 11, 12] rfl rfl rfl rfl
  refine ⟨h.1, h.2.1, h.2.2.1, ?_⟩
  exact h.2.2.2.1 ⟨10, 1, 1⟩
    (by rw [search_st3_eval]; exact List.mem_cons_self _ _)

/-! ## C5 — multi-document retrieval (spec-modelled coordinator) -/

theorem assignRanks_length {α : Type} :
    ∀ (l : List (MultiResult α)) (i : Nat), (assignRanks i l).length = l.length := by
  intro l
  induction l with
  | nil => intro i; rfl
  | cons r rest ih => intro i; simp [assignRanks, ih]

theorem assignRanks_map_rank {α : Type} :
    ∀ (l : List (MultiResult α)) (i : Nat),
    (assignRanks i l).map (fun r => r.rank) = List.range' (i + 1) l.length := by
  intro l
  induction l with
  | nil => intro i; rfl
  | cons r rest ih =>
    intro i
    simp only [assignRanks, List.map_cons, List.length_cons, List.range'_succ]
    rw [ih (i + 1)]

theorem assignRanks_map_sim {α : Type} :
    ∀ (l : List (MultiResult α)) (i : Nat),
    (assignRanks i l).map (fun r => r.similarity_score) =
      l.map (fun r => r.similarity_score) := by
  intro l
  induction l with
  | nil => intro i; rfl
  | cons r rest ih =>
    intro i
    simp only [assignRanks, List.map_cons]
    rw [ih (i + 1)]

theorem mem_assignRanks {α : Type} :
    ∀ (l : List (MultiResult α)) (i : Nat) (r : MultiResult α),
    r ∈ assignRanks i l → ∃ s ∈ l, r.chunk = s.chunk ∧
      r.similarity_score = s.similarity_score ∧
      r.source_document_id = s.source_document_id := by
  intro l
  induction l with
  | nil => intro i r h; simp [assignRanks] at h
  | cons x rest ih =>
    intro i r h
    rcases (List.mem_cons).mp h with h0 | h1
    · exact ⟨x, List.mem_cons_self _ _, by simp [h0], by simp [h0], by simp [h0]⟩
    · rcases ih (i + 1) r h1 with ⟨s, hs, h2, h3, h4⟩
      exact ⟨s, List.mem_cons_of_mem _ hs, h2, h3, h4⟩

theorem search_stAB_A_eval :
    VectorStore.search stAB "A" [0, 0, 0] 1 = [⟨1, 9/10, 1⟩] := by
  have hidx : alookup "A" stAB.indexes = some ⟨3, [[1/3, 0, 0]]⟩ := rfl
  have hch : alookup "A" stAB.chunks_data = some [1] := rfl
  have hd : distFrom [0, 0, 0] 0 [[1/3, 0, 0]] = [((1:ℚ)/9, 0)] := by
    norm_num [distFrom, sqL2]
  have hsort : List.insertionSort hitLE [((1:ℚ)/9, 0)] = [((1:ℚ)/9, 0)] := rfl
  simp only [VectorStore.search, hidx, hch]
  rw [show min 1 ([1] : List Nat).length = 1 from rfl]
  simp only [faissSearch, hd, hsort]
  norm_num [buildResults]

theorem search_stAB_B_eval :
    VectorStore.search stAB "B" [0, 0, 0] 1 = [⟨2, 19/20, 1⟩] := by
  have hidx : alookup "B" stAB.indexes = some ⟨3, [[3/19, 3/19, 1/19]]⟩ := rfl
  have hch : alookup "B" stAB.chunks_data = some [2] := rfl
  have hd : distFrom [0, 0, 0] 0 [[3/19, 3/19, 1/19]] = [((1:ℚ)/19, 0)] := by
    norm_num [distFrom, sqL2]
  have hsort : List.insertionSort hitLE [((1:ℚ)/19, 0)] = [((1:ℚ)/19, 0)] := rfl
  simp only [VectorStore.search, hidx, hch]
  rw [show min 1 ([2] : List Nat).length = 1 from rfl]
  simp only [faissSearch, hd, hsort]
  norm_num [buildResults]

/-- Concrete evaluation of the spec's merge example: document B (similarity
19/20) outranks document A (similarity 9/10); both survive the per-document
`top_k = 1` bound and get dense ranks 1, 2. -/
theorem retrieve_many_stAB_eval :
    retrieve_many stAB ["A", "B"] [0, 0, 0] 1 =
      [⟨2, 19/20, 1, "B"⟩, ⟨1, 9/10, 2, "A"⟩] := by
  have hiA : (alookup "A" stAB.indexes).isSome = true := rfl
  have hiB : (alookup "B" stAB.indexes).isSome = true := rfl
  simp only [retrieve_many, List.flatMap_cons, List.flatMap_nil, hiA, hiB,
    if_true, search_stAB_A_eval, search_stAB_B_eval, List.map_cons,
    List.map_nil, List.append_nil, List.nil_append]
  norm_num [List.insertionSort, List.orderedInsert, simGE, assignRanks]

/-- C5 (confirmed against the spec-modelled coordinator): `retrieve_many`
searches each listed document independently with the same per-document
`top_k`, concatenates, re-sorts globally by similarity descending, assigns
dense 1-based ranks over the merged set, retains each result's source
document id, and skips unknown ids (contributing nothing) rather than
failing; on the two-document example it returns [B, A] with ranks 1, 2. -/
theorem retrieve_many_spec {α : Type} (vs : VectorStore α) (ids : List String)
    (q : List ℚ) (top_k : Nat) :
    ((retrieve_many vs ids q top_k).length =
      (ids.map (fun id => if (alookup id vs.indexes).isSome then
        (vs.search id q top_k).length else 0)).sum) ∧
    ((retrieve_many vs ids q top_k).map (fun r => r.rank) =
      List.range' 1 (retrieve_many vs ids q top_k).length) ∧
    ((retrieve_many vs ids q top_k).map
      (fun r => r.similarity_score)).Sorted (· ≥ ·) ∧
    (∀ r ∈ retrieve_many vs ids q top_k, r.source_document_id ∈ ids ∧
      (alookup r.source_document_id vs.indexes).isSome = true ∧
      ∃ s ∈ vs.search r.source_document_id q top_k,
        r.chunk = s.chunk ∧ r.similarity_score = s.similarity_score) ∧
    retrieve_many stAB ["A", "B"] [0, 0, 0] 1 =
      [⟨2, 19/20, 1, "B"⟩, ⟨1, 9/10, 2, "A"⟩] := by
  have hgather : retrieve_many vs ids q top_k =
      assignRanks 0 (List.insertionSort simGE (ids.flatMap (fun id =>
        if (alookup id vs.indexes).isSome then
          (vs.search id q top_k).map
            (fun r => ⟨r.chunk, r.similarity_score, r.rank, id⟩)
        else []))) := rfl
  set gathered := ids.flatMap (fun id =>
    if (alookup id vs.indexes).isSome then
      (vs.search id q top_k).map
        (fun r => (⟨r.chunk, r.similarity_score, r.rank, id⟩ : MultiResult α))
    else []) with hgathered
  have hperm : List.Perm (List.insertionSort simGE gathered) gathered :=
    List.perm_insertionSort simGE gathered
  have hlen : (retrieve_many vs ids q top_k).length = gathered.length := by
    rw [hgather, assignRanks_length, hperm.length_eq]
  refine ⟨?_, ?_, ?_, ?_, retrieve_many_stAB_eval⟩
  · rw [hlen, hgathered, List.length_flatMap]
    congr 1
    apply List.map_congr_left
    intro id _
    simp only [Function.comp_apply]
    by_cases hk : (alookup id vs.indexes).isSome = true <;> simp [hk]
  · rw [hgather, assignRanks_map_rank, hperm.length_eq, ← hlen, hgather]
  · rw [hgather, assignRanks_map_sim]
    apply List.pairwise_map.mpr
    have hsorted : (List.insertionSort simGE gathered).Sorted simGE :=
      List.sorted_insertionSort simGE gathered
    exact hsorted.imp (fun h => h)
  · intro r hr
    rw [hgather] at hr
    rcases mem_assignRanks _ 0 r hr with ⟨s, hs, hc, hsim, hsrc⟩
    have hsg : s ∈ gathered := hperm.subset hs
    rcases List.mem_flatMap.mp hsg with ⟨id, hid, hsin⟩
    by_cases hknown : (alookup id vs.indexes).isSome
    · rw [if_pos hknown] at hsin
      rcases List.mem_map.mp hsin with ⟨res, hres, hres_eq⟩
      have hsrc_id : s.source_document_id = id := by rw [← hres_eq]
      refine ⟨?_, ?_, ?_⟩
      · rw [hsrc, hsrc_id]; exact hid
      · rw [hsrc, hsrc_id]; exact hknown
      · refine ⟨res, ?_, ?_, ?_⟩
        · rw [hsrc, hsrc_id]; exact hres
        · rw [hc, ← hres_eq]
        · rw [hsim, ← hres_eq]
    · rw [if_neg hknown] at hsin
      simp at hsin

theorem retrieve_many_spec_witness :
    ((retrieve_many stAB ["A", "B"] [0, 0, 0] 1).length =
      ((["A", "B"] : List String).map (fun id =>
        if (alookup id stAB.indexes).isSome then
          (VectorStore.search stAB id [0, 0, 0] 1).length else 0)).sum) ∧
    ((retrieve_many stAB ["A", "B"] [0, 0, 0] 1).map (fun r => r.rank) =
      List.range' 1 (retrieve_many stAB ["A", "B"] [0, 0, 0] 1).length) ∧
    ((⟨2, 19/20, 1, "B"⟩ : MultiResult Nat).source_document_id ∈
      (["A", "B"] : List String) ∧
      (alookup (⟨2, 19/20, 1, "B"⟩ : MultiResult Nat).source_document_id
        stAB.indexes).isSome = true ∧
      ∃ s ∈ VectorStore.search stAB
          (⟨2, 19/20, 1, "B"⟩ : MultiResult Nat).source_document_id [0, 0, 0] 1,
        (⟨2, 19/20, 1, "B"⟩ : MultiResult Nat).chunk = s.chunk ∧
        (⟨2, 19/20, 1, "B"⟩ : MultiResult Nat).similarity_score =
          s.similarity_score) := by
  have h := retrieve_many_spec stAB ["A", "B"] [0, 0, 0] 1
  refine ⟨h.1, h.2.1, ?_⟩
  exact h.2.2.2.1 ⟨2, 19/20, 1, "B"⟩
    (by rw [retrieve_many_stAB_eval]; exact List.mem_cons_self _ _)

end ChatWithPdf
